import Mathlib

/-!
Shallow embedding of the command-handling core of featherbread/randomizer:
the argument parser and dispatcher (internal/randomizer), the Slack token
providers with the cached AWS SSM parameter fetch (internal/slack/token.go),
and the selection handler's shuffle dependency (internal/randomizer/app.go).

Go values are modelled as follows: strings as `String`, `time.Time` as a
`Nat` Unix-style instant, `time.Duration` as `Int` nanoseconds, slices of
strings as `List String`, errors as explicit sum types, and environment
lookups (`os.LookupEnv`) as a function `String → Option String`.
-/

namespace Randomizer

/-- The `operation` enumeration from the randomizer package. -/
inductive operation where
  | makeSelection
  | showHelp
  | listGroups
  | showGroup
  | saveGroup
  | deleteGroup
deriving DecidableEq, Repr

/-- `operation.String` from the randomizer package. -/
def operation.toGoString : operation → String
  | .makeSelection => "select"
  | .showHelp => "help"
  | .listGroups => "list"
  | .showGroup => "show"
  | .saveGroup => "save"
  | .deleteGroup => "delete"

/-- The randomizer `Error` type: an internal diagnostic cause and a
user-facing help text, modelled as the two formatted strings. -/
structure Error where
  cause : String
  helpText : String
deriving DecidableEq, Repr

/-- Go `%q` applied to a flag token: the token wrapped in double quotes.
(Exact for the flag strings involved here, which contain no characters that
`%q` would escape.) -/
def goQuote (s : String) : String :=
  "\"" ++ s ++ "\""

/-- `parseArgs` from the randomizer package. Mirrors the Go control flow:
the help special cases first, then a switch on `args[0]` where `/list`
returns immediately, `/show`, `/save` and `/delete` fall through to the
operand-arity check, and everything else selects. Returns the same four
results as the Go function, with the `error` as an `Option Error`. -/
def parseArgs (args : List String) : operation × String × List String × Option Error :=
  if args.length = 0 ∨ args.head? = some "/help" ∨ (args.length = 1 ∧ args.head? = some "help") then
    (.showHelp, "", args, none)
  else
    match args with
    | [] => (.showHelp, "", args, none)
    | a0 :: rest =>
      if a0 = "/list" then
        (.listGroups, "", args, none)
      else if a0 = "/show" ∨ a0 = "/save" ∨ a0 = "/delete" then
        let op : operation :=
          if a0 = "/show" then .showGroup
          else if a0 = "/save" then .saveGroup
          else .deleteGroup
        if args.length < 2 then
          (op, "", [], some
            { cause := goQuote a0 ++ " flag requires an argument"
              helpText := "Whoops, " ++ goQuote a0 ++ " requires an argument!" })
        else
          (op, rest.headD "", rest.drop 1, none)
      else
        (.makeSelection, "", args, none)

/-- Tags naming the six handler functions installed in `appHandlers`
(`App.showHelp`, `App.makeSelection`, ...). The handler bodies live outside
the excerpted core; only the identity of each handler matters for dispatch. -/
inductive HandlerTag where
  | showHelpH
  | makeSelectionH
  | listGroupsH
  | showGroupH
  | saveGroupH
  | deleteGroupH
deriving DecidableEq, Repr

/-- The `appHandlers` map literal from app.go, as an association list in
source order. -/
def appHandlers : List (operation × HandlerTag) :=
  [ (.showHelp, .showHelpH)
  , (.makeSelection, .makeSelectionH)
  , (.listGroups, .listGroupsH)
  , (.showGroup, .showGroupH)
  , (.saveGroup, .saveGroupH)
  , (.deleteGroup, .deleteGroupH) ]

/-- `App.Main` restricted to what the excerpted core determines: parse the
arguments; on a parse error return it without consulting the handler table;
otherwise look the operation up in `appHandlers` (a missing entry in the Go
map would be a nil handler, modelled as `none`). -/
def MainDispatch (args : List String) : Except Error (Option HandlerTag) :=
  match parseArgs args with
  | (_, _, _, some e) => .error e
  | (op, _, _, none) => .ok (appHandlers.lookup op)

end Randomizer

namespace Randomizer

/-- The swap closure passed to `rand.Shuffle` in app.go:
`options[i], options[j] = options[j], options[i]` (simultaneous assignment
on the slice; out-of-range indices cannot occur in the shuffle loop and
leave the list unchanged here). -/
def swapIdx {α : Type} (l : List α) (i j : Nat) : List α :=
  match l.get? i, l.get? j with
  | some a, some b => (l.set i b).set j a
  | _, _ => l

/-- The Fisher-Yates loop of `math/rand/v2`'s `rand.Shuffle` (standard
library, outside this repository):
`for i := n-1; i > 0; i-- { j := uniform draw from [0, i]; swap(i, j) }`,
with the swap closure from app.go. `choices` lists the draws `j` for
`i = n-1, n-2, ..., 1` in loop order, so the draw at the head of a
non-empty `choices` belongs to index `cs.length + 1`; after that swap the
loop never touches that index again and continues on the lower ones. -/
def applyChoices {α : Type} : List α → List Nat → List α
  | l, [] => l
  | l, c :: cs => applyChoices (swapIdx l (cs.length + 1) c) cs

/-- The `shuffle` function installed by `NewApp` in app.go: run
`rand.Shuffle` over the options with the swap closure. The random draws of
`rand.Shuffle` are made explicit as `choices`; a run over a list of length
`n` uses `n - 1` draws with the draw for index `i` uniform on `[0, i]`. -/
def shuffle (choices : List Nat) (options : List String) : List String :=
  applyChoices options choices

/-- All draw sequences `rand.Shuffle` can make for a list of `i + 1`
elements: the draw for the top index `i` ranges over `[0, i]`, followed by
any draw sequence for the remaining `i` elements. Each sequence is equally
likely, each being one cell of the uniform product distribution. -/
def choiceVectors : Nat → List (List Nat)
  | 0 => [[]]
  | i + 1 => (List.range (i + 2)).flatMap (fun c => (choiceVectors i).map (fun cs => c :: cs))

/-- The draws of one `rand.Shuffle` run are in range: the draw for loop
index `i` lies in `[0, i]`. -/
def ValidChoices : List Nat → Prop
  | [] => True
  | c :: cs => c ≤ cs.length + 1 ∧ ValidChoices cs

end Randomizer

namespace Slack

/-- `DefaultAWSParameterTTL = 2 * time.Minute` from token.go, in nanoseconds
(Go `time.Duration` is an integer nanosecond count). -/
def DefaultAWSParameterTTL : Int := 2 * 60 * 1000000000

/-- The two `TokenProvider` variants constructed in token.go: `StaticToken`
closes over a fixed token string; `AWSParameter` closes over the SSM
parameter name and the cache TTL. -/
inductive TokenProvider where
  | staticToken (token : String)
  | awsParameter (name : String) (ttl : Int)
deriving DecidableEq, Repr

/-- `ssmTTLFromEnv` from token.go. `env` models `os.LookupEnv`;
`parseDuration` models the standard library `time.ParseDuration` (its result
in nanoseconds, or the error message), supplied as a parameter because its
implementation is outside this repository. -/
def ssmTTLFromEnv (parseDuration : String → Except String Int)
    (env : String → Option String) : Except String Int :=
  match env "SLACK_TOKEN_SSM_TTL" with
  | none => .ok DefaultAWSParameterTTL
  | some ttlEnv =>
    match parseDuration ttlEnv with
    | .error e => .error ("SLACK_TOKEN_SSM_TTL is not a valid Go duration: " ++ e)
    | .ok ttl => .ok ttl

/-- `TokenProviderFromEnv` from token.go: `SLACK_TOKEN` wins if present,
then `SLACK_TOKEN_SSM_NAME` with the TTL from `ssmTTLFromEnv`, otherwise an
error. -/
def TokenProviderFromEnv (parseDuration : String → Except String Int)
    (env : String → Option String) : Except String TokenProvider :=
  match env "SLACK_TOKEN" with
  | some token => .ok (.staticToken token)
  | none =>
    match env "SLACK_TOKEN_SSM_NAME" with
    | some ssmName =>
      match ssmTTLFromEnv parseDuration env with
      | .error e => .error e
      | .ok ttl => .ok (.awsParameter ssmName ttl)
    | none => .error "missing SLACK_TOKEN or SLACK_TOKEN_SSM_NAME in environment"

/-- The cache state closed over by the `AWSParameter` provider: the `token`
and `expiry` variables. The Go zero values are the empty string and the zero
time instant. Time instants are `Nat`s; `time.Now().Before(expiry)` is
`now < expiry`. -/
structure SecretCache where
  token : String
  expiry : Nat
deriving DecidableEq, Repr

/-- Errors a call to the `AWSParameter` provider can return: `ctx.Err()`
when cancelled while waiting for the lock, the error from `awsconfig.New`,
or the wrapped error from `ssm GetParameter`. -/
inductive TokenError where
  | cancelled
  | configError (msg : String)
  | fetchError (msg : String)
deriving DecidableEq, Repr

/-- The outcome of the remote-fetch sequence on the cache-miss path of
`AWSParameter`: `awsconfig.New` fails, `GetParameter` fails, or the
parameter value is retrieved. -/
inductive FetchOutcome where
  | configFail (msg : String)
  | getFail (msg : String)
  | success (value : String)
deriving DecidableEq, Repr

/-- The body of the `AWSParameter` closure once inside the critical section
(token.go lines 94-115): on `time.Now().Before(expiry)` return the cached
token; otherwise run the remote fetch, propagating either error with the
cache untouched, and on success overwrite `token` and set
`expiry = now + ttl`. Returns the updated cache and the call's result. -/
def awsParameterCritical (ttl : Nat) (now : Nat) (fetch : FetchOutcome)
    (c : SecretCache) : SecretCache × Except TokenError String :=
  if now < c.expiry then
    (c, .ok c.token)
  else
    match fetch with
    | .configFail msg => (c, .error (.configError msg))
    | .getFail msg => (c, .error (.fetchError ("loading Slack token parameter: " ++ msg)))
    | .success v => ({ token := v, expiry := now + ttl }, .ok v)

/-- One full call to the `AWSParameter` closure (token.go lines 79-116):
the `select` either acquires the single-slot lock channel and runs the
critical section, or observes `ctx.Done()` first and returns `ctx.Err()`
without touching the cache. `cancelled` records which `select` branch
fired. -/
def awsParameterCall (ttl : Nat) (cancelled : Bool) (now : Nat)
    (fetch : FetchOutcome) (c : SecretCache) : SecretCache × Except TokenError String :=
  if cancelled then
    (c, .error .cancelled)
  else
    awsParameterCritical ttl now fetch c

deriving instance DecidableEq for Except

/-- The phase of one in-flight call to the `AWSParameter` closure:
waiting in the `select` for the lock channel, inside the critical section
before the expiry check, on the cache-miss path with the remote fetch in
flight, or returned with a result. -/
inductive Phase where
  | waiting
  | entered
  | fetching
  | done (result : Except TokenError String)
deriving DecidableEq, Repr

/-- One concurrent call: the instant at which it observes `time.Now()`, the
outcome its remote fetch would have, and its current phase. -/
structure Proc where
  now : Nat
  fetch : FetchOutcome
  phase : Phase
deriving DecidableEq, Repr

/-- The shared state of an `AWSParameter` closure under concurrent calls:
whether the capacity-one lock channel is occupied, the cache variables, and
the in-flight calls. -/
structure SysState where
  lockHeld : Bool
  cache : SecretCache
  procs : List Proc
deriving DecidableEq, Repr

/-- Events in an interleaved execution, each naming the call it belongs to.
`missFetch` is the event of issuing the remote fetch (entering token.go
lines 99-108 on a cache miss). -/
inductive Label where
  | acquire (i : Nat)
  | cancel (i : Nat)
  | hit (i : Nat)
  | missFetch (i : Nat)
  | fetchOk (i : Nat)
  | fetchFail (i : Nat)
deriving DecidableEq, Repr

/-- Interleaving small-step semantics of the `AWSParameter` closure.
Each rule is one atomic step of the Go code of token.go lines 79-116:
`acquire` is the `select` branch that sends into the empty lock channel;
`cancel` is the `ctx.Done()` branch of the `select`, returning `ctx.Err()`;
`hit` is the `time.Now().Before(expiry)` fast path, returning the cached
token and (via the deferred receive) freeing the lock; `missFetch` starts
the remote fetch after the expiry check fails; `fetchOk` completes the
fetch, overwrites the cache with the new value and `now + ttl`, returns the
value, and frees the lock; `fetchFail` returns the config or wrapped
GetParameter error with the cache untouched, freeing the lock. -/
inductive Step (ttl : Nat) : Label → SysState → SysState → Prop where
  | acquire {s : SysState} {i : Nat} {p : Proc} :
      s.lockHeld = false →
      s.procs.get? i = some p →
      p.phase = .waiting →
      Step ttl (.acquire i) s
        { lockHeld := true, cache := s.cache
          procs := s.procs.set i { p with phase := .entered } }
  | cancel {s : SysState} {i : Nat} {p : Proc} :
      s.procs.get? i = some p →
      p.phase = .waiting →
      Step ttl (.cancel i) s
        { lockHeld := s.lockHeld, cache := s.cache
          procs := s.procs.set i { p with phase := .done (.error .cancelled) } }
  | hit {s : SysState} {i : Nat} {p : Proc} :
      s.procs.get? i = some p →
      p.phase = .entered →
      p.now < s.cache.expiry →
      Step ttl (.hit i) s
        { lockHeld := false, cache := s.cache
          procs := s.procs.set i { p with phase := .done (.ok s.cache.token) } }
  | missFetch {s : SysState} {i : Nat} {p : Proc} :
      s.procs.get? i = some p →
      p.phase = .entered →
      ¬ p.now < s.cache.expiry →
      Step ttl (.missFetch i) s
        { lockHeld := s.lockHeld, cache := s.cache
          procs := s.procs.set i { p with phase := .fetching } }
  | fetchOk {s : SysState} {i : Nat} {p : Proc} {v : String} :
      s.procs.get? i = some p →
      p.phase = .fetching →
      p.fetch = .success v →
      Step ttl (.fetchOk i) s
        { lockHeld := false, cache := { token := v, expiry := p.now + ttl }
          procs := s.procs.set i { p with phase := .done (.ok v) } }
  | fetchFailConfig {s : SysState} {i : Nat} {p : Proc} {msg : String} :
      s.procs.get? i = some p →
      p.phase = .fetching →
      p.fetch = .configFail msg →
      Step ttl (.fetchFail i) s
        { lockHeld := false, cache := s.cache
          procs := s.procs.set i { p with phase := .done (.error (.configError msg)) } }
  | fetchFailGet {s : SysState} {i : Nat} {p : Proc} {msg : String} :
      s.procs.get? i = some p →
      p.phase = .fetching →
      p.fetch = .getFail msg →
      Step ttl (.fetchFail i) s
        { lockHeld := false, cache := s.cache
          procs := s.procs.set i
            { p with phase := .done (.error (.fetchError ("loading Slack token parameter: " ++ msg))) } }

/-- Reflexive-transitive closure of `Step`, recording the trace of labels. -/
inductive Steps (ttl : Nat) : SysState → List Label → SysState → Prop where
  | refl {s : SysState} : Steps ttl s [] s
  | cons {s t u : SysState} {l : Label} {ls : List Label} :
      Step ttl l s t → Steps ttl t ls u → Steps ttl s (l :: ls) u

/-- A call is inside the check-then-fetch-then-update sequence. -/
def Proc.inSection (p : Proc) : Bool :=
  match p.phase with
  | .entered => true
  | .fetching => true
  | _ => false

/-- A call has returned. -/
def Proc.isDone (p : Proc) : Bool :=
  match p.phase with
  | .done _ => true
  | _ => false

/-- Number of calls currently inside the critical section. -/
def sectionCount (s : SysState) : Nat :=
  s.procs.countP (fun p => p.inSection)

/-- Number of remote fetches issued along a trace. -/
def countFetches (trace : List Label) : Nat :=
  trace.countP (fun l => match l with | .missFetch _ => true | _ => false)

/-- The per-call data that never changes across steps: the instant the call
reads and the outcome its remote fetch would have. -/
def coreOf (p : Proc) : Nat × FetchOutcome := (p.now, p.fetch)

/-- Trace invariant for the stampede scenario: `n` fetches have been issued
so far. Either no fetch has happened (cache untouched, every call still
waiting or entered), or the single fetch is in flight (cache untouched), or
the single fetch has completed and refreshed the cache past every call's
instant, with nobody fetching. -/
def StateInv (c0 : SecretCache) (procs0 : List Proc) (n : Nat) (s : SysState) : Prop :=
  s.procs.map coreOf = procs0.map coreOf ∧
  ((n = 0 ∧ s.cache = c0 ∧ ∀ p ∈ s.procs, p.phase = .waiting ∨ p.phase = .entered) ∨
   (n = 1 ∧ s.cache = c0 ∧ ∃ j q, s.procs.get? j = some q ∧ q.phase = .fetching) ∨
   (n = 1 ∧ (∀ p ∈ s.procs, p.now < s.cache.expiry) ∧ ∀ p ∈ s.procs, p.phase ≠ .fetching))

/-- The mutual-exclusion invariant of the lock channel: when the channel is
empty nobody is inside the critical section, and when it is occupied exactly
one call is. -/
def WF (s : SysState) : Prop :=
  (s.lockHeld = false → sectionCount s = 0) ∧ (s.lockHeld = true → sectionCount s = 1)

end Slack

section ListLemmas

theorem get?_some_lt_length {α : Type} {l : List α} {i : Nat} {p : α}
    (h : l.get? i = some p) : i < l.length := by
  by_contra hc
  push_neg at hc
  rw [List.get?_eq_none.mpr hc] at h
  simp at h

theorem countP_set_eq {α : Type} (f : α → Bool) :
    ∀ (l : List α) (i : Nat) (p q : α), l.get? i = some p →
      (l.set i q).countP f + (if f p then 1 else 0) = l.countP f + (if f q then 1 else 0)
  | [], i, p, q, h => by simp at h
  | a :: l, 0, p, q, h => by
    simp only [List.get?] at h
    cases h
    simp only [List.set, List.countP_cons]
    omega
  | a :: l, i + 1, p, q, h => by
    simp only [List.get?] at h
    have ih := countP_set_eq f l i p q h
    simp only [List.set, List.countP_cons]
    omega

theorem two_le_countP {α : Type} (f : α → Bool) :
    ∀ (l : List α) (i j : Nat) (p q : α), i ≠ j → l.get? i = some p → l.get? j = some q →
      f p = true → f q = true → 2 ≤ l.countP f
  | [], i, j, p, q, hij, hi, hj, hp, hq => by simp at hi
  | a :: l, 0, 0, p, q, hij, hi, hj, hp, hq => absurd rfl hij
  | a :: l, 0, j + 1, p, q, hij, hi, hj, hp, hq => by
    simp only [List.get?] at hi hj
    cases hi
    have hmem : q ∈ l := List.get?_mem hj
    simp [List.countP_cons, hp]
    exact ⟨q, hmem, hq⟩
  | a :: l, i + 1, 0, p, q, hij, hi, hj, hp, hq => by
    simp only [List.get?] at hi hj
    cases hj
    have hmem : p ∈ l := List.get?_mem hi
    simp [List.countP_cons, hq]
    exact ⟨p, hmem, hp⟩
  | a :: l, i + 1, j + 1, p, q, hij, hi, hj, hp, hq => by
    simp only [List.get?] at hi hj
    have ih := two_le_countP f l i j p q (by omega) hi hj hp hq
    simp only [List.countP_cons]
    omega

theorem map_set_eq_of_eq {α β : Type} (g : α → β) :
    ∀ (l : List α) (i : Nat) (p q : α), l.get? i = some p → g q = g p →
      (l.set i q).map g = l.map g
  | [], i, p, q, h, hg => by simp
  | a :: l, 0, p, q, h, hg => by
    simp only [List.get?] at h
    cases h
    simp [hg]
  | a :: l, i + 1, p, q, h, hg => by
    simp only [List.get?] at h
    simp [map_set_eq_of_eq g l i p q h hg]

end ListLemmas

namespace Randomizer

/-- Claim C5: `parseArgs` on an empty list, on a list whose first token is
"/help", or on the single-token list ["help"] yields the help operation with
empty operand and the original token list; once extra arguments are present
the single-token "help" exception no longer applies and the result is a
selection. -/
theorem parseArgs_help_cases :
    parseArgs [] = (.showHelp, "", [], none) ∧
    (∀ rest : List String, parseArgs ("/help" :: rest) = (.showHelp, "", "/help" :: rest, none)) ∧
    parseArgs ["help"] = (.showHelp, "", ["help"], none) ∧
    (∀ (x : String) (rest : List String),
      parseArgs ("help" :: x :: rest) = (.makeSelection, "", "help" :: x :: rest, none)) := by
  refine ⟨by decide, ?_, by decide, ?_⟩
  · intro rest
    simp [parseArgs]
  · intro x rest
    simp [parseArgs]

/-- Claim C6: for a first token "/show", "/save" or "/delete", a list with
at least two tokens parses to the corresponding operation with operand
`args[1]` and remaining arguments `args[2:]`; a lone flag fails with the
missing-operand error whose user-facing help text and diagnostic cause both
name the offending flag, and `MainDispatch` returns that error without
consulting the handler table. -/
theorem parseArgs_group_flags (a0 : String) (op : operation)
    (hmem : (a0, op) ∈ [("/show", operation.showGroup), ("/save", operation.saveGroup),
      ("/delete", operation.deleteGroup)]) :
    (∀ (x : String) (rest : List String), parseArgs (a0 :: x :: rest) = (op, x, rest, none)) ∧
    parseArgs [a0] = (op, "", [], some
      { cause := goQuote a0 ++ " flag requires an argument"
        helpText := "Whoops, " ++ goQuote a0 ++ " requires an argument!" }) ∧
    MainDispatch [a0] = .error
      { cause := goQuote a0 ++ " flag requires an argument"
        helpText := "Whoops, " ++ goQuote a0 ++ " requires an argument!" } := by
  simp only [List.mem_cons, List.not_mem_nil, or_false, Prod.mk.injEq] at hmem
  rcases hmem with ⟨h1, h2⟩ | ⟨h1, h2⟩ | ⟨h1, h2⟩ <;> subst h1 <;> subst h2 <;>
    refine ⟨?_, by decide, by decide⟩ <;> intro x rest <;> simp [parseArgs, goQuote]

theorem parseArgs_group_flags_witness :
    parseArgs ["/show", "g", "a", "b"] = (operation.showGroup, "g", ["a", "b"], none) ∧
    MainDispatch ["/show"] = .error
      { cause := goQuote "/show" ++ " flag requires an argument"
        helpText := "Whoops, " ++ goQuote "/show" ++ " requires an argument!" } :=
  ⟨(parseArgs_group_flags "/show" .showGroup (by decide)).1 "g" ["a", "b"],
   (parseArgs_group_flags "/show" .showGroup (by decide)).2.2⟩

/-- Claim C7: any non-empty token list whose first token is none of the
recognized flags, and is not the lone token "help", parses to a selection
with empty operand and the full original token list preserved, never an
error. -/
theorem parseArgs_default_select (a0 : String) (args : List String)
    (h1 : a0 ≠ "/help") (h2 : a0 ≠ "/list") (h3 : a0 ≠ "/show") (h4 : a0 ≠ "/save")
    (h5 : a0 ≠ "/delete") (h6 : ¬ (a0 = "help" ∧ args = [])) :
    parseArgs (a0 :: args) = (.makeSelection, "", a0 :: args, none) := by
  have hcond : ¬ ((a0 :: args).length = 0 ∨ (a0 :: args).head? = some "/help" ∨
      ((a0 :: args).length = 1 ∧ (a0 :: args).head? = some "help")) := by
    simp only [List.length_cons, List.head?_cons, Option.some.injEq]
    push_neg
    refine ⟨by omega, h1, ?_⟩
    intro hlen
    have hargs : args = [] := by
      cases args with
      | nil => rfl
      | cons b bs => simp at hlen
    intro ha
    exact h6 ⟨ha, hargs⟩
  rw [parseArgs, if_neg hcond]
  simp only [if_neg h2]
  rw [if_neg]
  push_neg
  exact ⟨h3, h4, h5⟩

theorem parseArgs_default_select_witness :
    parseArgs ["somegroup", "x", "y"] = (.makeSelection, "", ["somegroup", "x", "y"], none) :=
  parseArgs_default_select "somegroup" ["x", "y"] (by decide) (by decide) (by decide)
    (by decide) (by decide) (by decide)

/-- Claim C8: the static handler table maps each of the six operations to
exactly one handler, so the lookup `Main` performs after any successful
parse always finds a handler; the missing-handler case is unreachable. -/
theorem appHandlers_total_dispatch :
    (∀ op : operation, (appHandlers.lookup op).isSome = true ∧
      appHandlers.countP (fun e => e.1 == op) = 1) ∧
    (∀ args : List String, (parseArgs args).2.2.2 = none →
      ∃ h : HandlerTag, MainDispatch args = .ok (some h)) := by
  have htotal : ∀ op : operation, (appHandlers.lookup op).isSome = true ∧
      appHandlers.countP (fun e => e.1 == op) = 1 := by
    intro op
    cases op <;> exact ⟨rfl, rfl⟩
  refine ⟨htotal, ?_⟩
  intro args herr
  rcases hp : parseArgs args with ⟨op, operand, rest, err⟩
  rw [hp] at herr
  simp only at herr
  subst herr
  rcases hl : appHandlers.lookup op with _ | h
  · exfalso
    have := (htotal op).1
    rw [hl] at this
    simp at this
  · exact ⟨h, by rw [MainDispatch, hp]; exact congrArg Except.ok hl⟩

theorem appHandlers_total_dispatch_witness :
    (appHandlers.lookup operation.makeSelection).isSome = true ∧
    ∃ h : HandlerTag, MainDispatch ["/list"] = .ok (some h) :=
  ⟨(appHandlers_total_dispatch.1 operation.makeSelection).1,
   appHandlers_total_dispatch.2 ["/list"] (by decide)⟩

theorem length_swapIdx {α : Type} (l : List α) (i j : Nat) :
    (swapIdx l i j).length = l.length := by
  unfold swapIdx
  cases h1 : l.get? i <;> cases h2 : l.get? j <;> simp

theorem countP_swapIdx {α : Type} (f : α → Bool) (l : List α) (i j : Nat) :
    (swapIdx l i j).countP f = l.countP f := by
  unfold swapIdx
  cases h1 : l.get? i with
  | none => rfl
  | some a =>
    cases h2 : l.get? j with
    | none => rfl
    | some b =>
      have hb2 : (l.set i b).get? j = some b := by
        by_cases hij : i = j
        · subst hij
          rw [List.get?_set_eq_of_lt _ (get?_some_lt_length h1)]
        · rw [List.get?_set_ne _ _ hij]
          exact h2
      have eq1 := countP_set_eq f l i a b h1
      have eq2 := countP_set_eq f (l.set i b) j b a hb2
      show ((l.set i b).set j a).countP f = l.countP f
      cases hfa : f a <;> cases hfb : f b <;>
        simp only [hfa, hfb, if_true, if_false, Bool.false_eq_true] at eq1 eq2 <;> omega

theorem swapIdx_perm {α : Type} [DecidableEq α] (l : List α) (i j : Nat) :
    (swapIdx l i j).Perm l := by
  rw [List.perm_iff_count]
  intro x
  show (swapIdx l i j).countP (· == x) = l.countP (· == x)
  rw [countP_swapIdx]

theorem applyChoices_perm {α : Type} [DecidableEq α] :
    ∀ (cs : List Nat) (l : List α), (applyChoices l cs).Perm l
  | [], l => List.Perm.refl l
  | c :: cs, l => by
    simp only [applyChoices]
    exact (applyChoices_perm cs (swapIdx l (cs.length + 1) c)).trans
      (swapIdx_perm l (cs.length + 1) c)

theorem swapIdx_append {α : Type} (xs ys : List α) (i j : Nat)
    (hi : i < xs.length) (hj : j < xs.length) :
    swapIdx (xs ++ ys) i j = swapIdx xs i j ++ ys := by
  unfold swapIdx
  rw [List.get?_append hi, List.get?_append hj]
  cases h1 : xs.get? i with
  | none => exact absurd (List.get?_eq_none.mp h1) (by omega)
  | some a =>
    cases h2 : xs.get? j with
    | none => exact absurd (List.get?_eq_none.mp h2) (by omega)
    | some b =>
      have hjj : j < (xs.set i b).length := by rw [List.length_set]; exact hj
      show ((xs ++ ys).set i b).set j a = (xs.set i b).set j a ++ ys
      rw [List.set_append_left _ _ hi, List.set_append_left _ _ hjj]

theorem applyChoices_append_last {α : Type} :
    ∀ (cs : List Nat) (xs : List α) (a : α), ValidChoices cs → cs.length < xs.length →
      applyChoices (xs ++ [a]) cs = applyChoices xs cs ++ [a]
  | [], xs, a, _, _ => rfl
  | c :: cs, xs, a, hv, hlen => by
    have hi : cs.length + 1 < xs.length := hlen
    have hj : c < xs.length := by
      have := hv.1
      omega
    simp only [applyChoices]
    rw [swapIdx_append xs [a] (cs.length + 1) c hi hj]
    exact applyChoices_append_last cs (swapIdx xs (cs.length + 1) c) a hv.2
      (by rw [length_swapIdx]; omega)

theorem choiceVectors_mem_length :
    ∀ (n : Nat) (cs : List Nat), cs ∈ choiceVectors n → cs.length = n
  | 0, cs, h => by
    simp only [choiceVectors, List.mem_singleton] at h
    subst h
    rfl
  | n + 1, cs, h => by
    simp only [choiceVectors, List.mem_flatMap, List.mem_map] at h
    obtain ⟨c, _, cs2, hcs2, rfl⟩ := h
    simp [choiceVectors_mem_length n cs2 hcs2]

theorem choiceVectors_mem_valid :
    ∀ (n : Nat) (cs : List Nat), cs ∈ choiceVectors n → ValidChoices cs
  | 0, cs, h => by
    simp only [choiceVectors, List.mem_singleton] at h
    subst h
    trivial
  | n + 1, cs, h => by
    simp only [choiceVectors, List.mem_flatMap, List.mem_map] at h
    obtain ⟨c, hc, cs2, hcs2, rfl⟩ := h
    refine ⟨?_, choiceVectors_mem_valid n cs2 hcs2⟩
    rw [choiceVectors_mem_length n cs2 hcs2]
    rw [List.mem_range] at hc
    omega

theorem choiceVectors_length : ∀ n : Nat, (choiceVectors n).length = (n + 1).factorial
  | 0 => rfl
  | n + 1 => by
    simp only [choiceVectors]
    rw [List.length_flatMap]
    have hmap : List.map (List.length ∘ fun c => (choiceVectors n).map (fun cs => c :: cs))
        (List.range (n + 2)) = (List.range (n + 2)).map (fun _ => (n + 1).factorial) := by
      rw [List.map_eq_map_iff]
      intro c _
      simp only [Function.comp]
      rw [List.length_map, choiceVectors_length n]
    rw [hmap, List.map_const', List.sum_replicate, List.length_range, smul_eq_mul]
    simp only [Nat.factorial_succ]

theorem eq_take_append_of_get? {α : Type} :
    ∀ (m : List α) (k : Nat) (x : α), m.get? k = some x → m.length = k + 1 →
      m = m.take k ++ [x]
  | [], k, x, h, _ => by simp at h
  | a :: m, 0, x, h, hlen => by
    simp only [List.get?] at h
    injection h with h
    subst h
    simp only [List.length_cons, Nat.add_right_cancel_iff] at hlen
    rw [List.length_eq_zero] at hlen
    subst hlen
    rfl
  | a :: m, k + 1, x, h, hlen => by
    simp only [List.get?] at h
    simp only [List.length_cons, Nat.add_right_cancel_iff] at hlen
    have ih := eq_take_append_of_get? m k x h hlen
    simp only [List.take_succ_cons, List.cons_append]
    rw [← ih]

theorem swapIdx_last {α : Type} (l : List α) (n c : Nat) (b : α)
    (hlen : l.length = n + 2) (hc : l.get? c = some b) :
    (swapIdx l (n + 1) c).get? (n + 1) = some b := by
  obtain ⟨a, ha⟩ : ∃ a, l.get? (n + 1) = some a := by
    cases h : l.get? (n + 1) with
    | none =>
      have := List.get?_eq_none.mp h
      omega
    | some a => exact ⟨a, rfl⟩
  unfold swapIdx
  rw [ha, hc]
  by_cases hcn : c = n + 1
  · subst hcn
    rw [ha] at hc
    injection hc with hc
    subst hc
    show ((l.set (n + 1) a).set (n + 1) a).get? (n + 1) = some a
    rw [List.get?_set_eq_of_lt]
    rw [List.length_set]
    omega
  · show ((l.set (n + 1) b).set c a).get? (n + 1) = some b
    rw [List.get?_set_ne _ _ hcn]
    rw [List.get?_set_eq_of_lt]
    omega

theorem applyChoices_bij {α : Type} [DecidableEq α] :
    ∀ (n : Nat) (l : List α), l.Nodup → l.length = n + 1 →
      ((choiceVectors n).map (fun cs => applyChoices l cs)).Nodup ∧
      (∀ p : List α, p.Perm l → p ∈ (choiceVectors n).map (fun cs => applyChoices l cs))
  | 0, l, hnd, hlen => by
    obtain ⟨a, rfl⟩ : ∃ a, l = [a] := List.length_eq_one.mp hlen
    refine ⟨by simp [choiceVectors, applyChoices], ?_⟩
    intro p hp
    rw [List.perm_singleton] at hp
    subst hp
    simp [choiceVectors, applyChoices]
  | n + 1, l, hnd, hlen => by
    have key : ∀ c : Nat, c < n + 2 → ∀ b : α, l.get? c = some b →
        ((swapIdx l (n + 1) c).take (n + 1)).Nodup ∧
        ((swapIdx l (n + 1) c).take (n + 1)).length = n + 1 ∧
        swapIdx l (n + 1) c = (swapIdx l (n + 1) c).take (n + 1) ++ [b] ∧
        (∀ cs ∈ choiceVectors n,
          applyChoices l (c :: cs)
            = applyChoices ((swapIdx l (n + 1) c).take (n + 1)) cs ++ [b]) := by
      intro c hc b hb
      have hswlen : (swapIdx l (n + 1) c).length = n + 2 := by
        rw [length_swapIdx, hlen]
      have hswnd : (swapIdx l (n + 1) c).Nodup :=
        ((swapIdx_perm l (n + 1) c).nodup_iff).mpr hnd
      have hsplit : swapIdx l (n + 1) c = (swapIdx l (n + 1) c).take (n + 1) ++ [b] :=
        eq_take_append_of_get? _ (n + 1) b (swapIdx_last l n c b (by rw [hlen]) hb) hswlen
      refine ⟨hswnd.sublist (List.take_sublist _ _), ?_, hsplit, ?_⟩
      · rw [List.length_take, hswlen]
        omega
      · intro cs hcs
        have hlcs := choiceVectors_mem_length n cs hcs
        have hv := choiceVectors_mem_valid n cs hcs
        simp only [applyChoices]
        rw [hlcs]
        nth_rewrite 1 [hsplit]
        refine applyChoices_append_last cs _ b hv ?_
        rw [List.length_take, hswlen, hlcs]
        omega
    have hmap : (choiceVectors (n + 1)).map (fun cs => applyChoices l cs)
        = (List.range (n + 2)).flatMap
            (fun c => (choiceVectors n).map (fun cs => applyChoices l (c :: cs))) := by
      simp only [choiceVectors, List.map_flatMap, List.map_map]
      rfl
    rw [hmap]
    constructor
    · rw [List.nodup_bind]
      constructor
      · intro c hcr
        rw [List.mem_range] at hcr
        obtain ⟨b, hb⟩ : ∃ b, l.get? c = some b := by
          cases h : l.get? c with
          | none =>
            have := List.get?_eq_none.mp h
            omega
          | some b => exact ⟨b, rfl⟩
        obtain ⟨hPnd, hPlen, hsplit, hblock⟩ := key c hcr b hb
        have hrw : (choiceVectors n).map (fun cs => applyChoices l (c :: cs))
            = ((choiceVectors n).map
                (fun cs => applyChoices ((swapIdx l (n + 1) c).take (n + 1)) cs)).map
                (fun q => q ++ [b]) := by
          rw [List.map_map]
          rw [List.map_eq_map_iff]
          intro cs hcs
          exact hblock cs hcs
        rw [hrw]
        have hinj : Function.Injective (fun q : List α => q ++ [b]) := by
          intro u v huv
          exact (List.append_inj' huv rfl).1
        exact ((applyChoices_bij n _ hPnd hPlen).1).map hinj
      · refine List.Pairwise.imp_of_mem ?_ (List.pairwise_lt_range (n + 2))
        intro c1 c2 hc1m hc2m hlt12
        rw [List.mem_range] at hc1m hc2m
        intro x hx1 hx2
        obtain ⟨b1, hb1⟩ : ∃ b, l.get? c1 = some b := by
          cases h : l.get? c1 with
          | none =>
            have := List.get?_eq_none.mp h
            omega
          | some b => exact ⟨b, rfl⟩
        obtain ⟨b2, hb2⟩ : ∃ b, l.get? c2 = some b := by
          cases h : l.get? c2 with
          | none =>
            have := List.get?_eq_none.mp h
            omega
          | some b => exact ⟨b, rfl⟩
        obtain ⟨hPnd1, hPlen1, hsplit1, hblock1⟩ := key c1 hc1m b1 hb1
        obtain ⟨hPnd2, hPlen2, hsplit2, hblock2⟩ := key c2 hc2m b2 hb2
        rw [List.mem_map] at hx1 hx2
        obtain ⟨cs1, hcs1, hxeq1⟩ := hx1
        obtain ⟨cs2, hcs2, hxeq2⟩ := hx2
        rw [hblock1 cs1 hcs1] at hxeq1
        rw [hblock2 cs2 hcs2] at hxeq2
        have hb12 : b1 = b2 := by
          have h12 := hxeq1.trans hxeq2.symm
          have := (List.append_inj' h12 rfl).2
          injection this
        have hceq : c1 = c2 := by
          refine List.get?_inj (by omega) hnd ?_
          rw [hb1, hb2, hb12]
        omega
    · intro p hp
      have hplen : p.length = n + 2 := by rw [hp.length_eq, hlen]
      have hpne : p ≠ [] := by
        intro h
        subst h
        simp at hplen
      have hxsplit := List.dropLast_concat_getLast hpne
      have hxmem : p.getLast hpne ∈ l := hp.subset (List.getLast_mem hpne)
      obtain ⟨c, hc⟩ := List.mem_iff_get?.mp hxmem
      have hclen : c < n + 2 := by
        have := get?_some_lt_length hc
        omega
      obtain ⟨hPnd, hPlen, hsplit, hblock⟩ := key c hclen (p.getLast hpne) hc
      have hq0 : p.Perm ((swapIdx l (n + 1) c).take (n + 1) ++ [p.getLast hpne]) := by
        rw [← hsplit]
        exact hp.trans (swapIdx_perm l (n + 1) c).symm
      have hq : p.dropLast.Perm ((swapIdx l (n + 1) c).take (n + 1)) := by
        refine (List.perm_append_right_iff [p.getLast hpne]).mp ?_
        rw [hxsplit]
        exact hq0
      have hmem := (applyChoices_bij n _ hPnd hPlen).2 p.dropLast hq
      rw [List.mem_map] at hmem
      obtain ⟨cs, hcs, hcseq⟩ := hmem
      rw [List.mem_flatMap]
      refine ⟨c, List.mem_range.mpr hclen, ?_⟩
      rw [List.mem_map]
      refine ⟨cs, hcs, ?_⟩
      rw [hblock cs hcs, hcseq]
      exact hxsplit

/-- Claim C9: the shuffle dependency installed by `NewApp` rearranges the
option list into a permutation of its original contents (same length, same
multiset), and it is uniform: over the `(n + 1)!` equally-likely draw
sequences of `rand.Shuffle`, the arrangements produced from `n + 1`
distinct elements are pairwise distinct and cover every permutation, so
each permutation arises from exactly one equally-likely draw sequence. -/
theorem shuffle_uniform (choices : List Nat) (options : List String) (n : Nat) :
    (shuffle choices options).Perm options ∧
    (shuffle choices options).length = options.length ∧
    (∀ x : String, (shuffle choices options).count x = options.count x) ∧
    (choiceVectors n).length = (n + 1).factorial ∧
    ((choiceVectors n).map (fun cs => applyChoices (List.range (n + 1)) cs)).Nodup ∧
    (∀ p : List Nat, p.Perm (List.range (n + 1)) →
      p ∈ (choiceVectors n).map (fun cs => applyChoices (List.range (n + 1)) cs)) := by
  have hperm := applyChoices_perm choices options
  have hbij := applyChoices_bij n (List.range (n + 1)) (List.nodup_range _) (List.length_range _)
  exact ⟨hperm, hperm.length_eq, fun x => hperm.count_eq x,
    choiceVectors_length n, hbij.1, hbij.2⟩

theorem shuffle_uniform_witness :
    (shuffle [1, 0] ["a", "b", "c"]).Perm ["a", "b", "c"] ∧
    [1, 0] ∈ (choiceVectors 1).map (fun cs => applyChoices (List.range 2) cs) :=
  ⟨(shuffle_uniform [1, 0] ["a", "b", "c"] 1).1,
   (shuffle_uniform [1, 0] ["a", "b", "c"] 1).2.2.2.2.2 [1, 0] (by decide)⟩

end Randomizer

namespace Slack

/-- Claim C1: inside the critical section of the `AWSParameter` provider,
if the current time is strictly before the stored expiry, the cached value
is returned with no error, independently of the remote fetch outcome (no
fetch is consumed); otherwise a successful fetch overwrites the value, sets
the expiry to the current time plus the TTL, and the new value is
returned. -/
theorem awsParameterCritical_hit_miss (ttl now : Nat) (c : SecretCache) :
    (now < c.expiry →
      ∀ fetch : FetchOutcome, awsParameterCritical ttl now fetch c = (c, .ok c.token)) ∧
    (¬ now < c.expiry →
      ∀ v : String, awsParameterCritical ttl now (.success v) c =
        ({ token := v, expiry := now + ttl }, .ok v)) := by
  constructor
  · intro hhit fetch
    rw [awsParameterCritical.eq_def, if_pos hhit]
  · intro hmiss v
    rw [awsParameterCritical.eq_def, if_neg hmiss]

theorem awsParameterCritical_hit_miss_witness :
    awsParameterCritical 5 3 (.getFail "boom") ⟨"t", 7⟩ = (⟨"t", 7⟩, .ok "t") ∧
    awsParameterCritical 5 9 (.success "v") ⟨"t", 7⟩ = (⟨"v", 14⟩, .ok "v") :=
  ⟨(awsParameterCritical_hit_miss 5 3 ⟨"t", 7⟩).1 (by decide) _,
   (awsParameterCritical_hit_miss 5 9 ⟨"t", 7⟩).2 (by decide) "v"⟩

/-- Claim C2: on the cache-miss path of the `AWSParameter` provider, a
failing configuration step or remote fetch returns the error and leaves
value and expiry exactly as they were, so any later call still takes the
cache-miss path and a successful retry fetches and refreshes normally. -/
theorem awsParameterCritical_failure (ttl now : Nat) (c : SecretCache)
    (hmiss : ¬ now < c.expiry) :
    (∀ msg, awsParameterCritical ttl now (.configFail msg) c = (c, .error (.configError msg))) ∧
    (∀ msg, awsParameterCritical ttl now (.getFail msg) c =
      (c, .error (.fetchError ("loading Slack token parameter: " ++ msg)))) ∧
    (∀ nxt : Nat, now ≤ nxt → ¬ nxt < c.expiry ∧
      ∀ v : String, awsParameterCritical ttl nxt (.success v) c =
        ({ token := v, expiry := nxt + ttl }, .ok v)) := by
  refine ⟨?_, ?_, ?_⟩
  · intro msg; rw [awsParameterCritical.eq_def, if_neg hmiss]
  · intro msg; rw [awsParameterCritical.eq_def, if_neg hmiss]
  · intro nxt hle
    have hmiss2 : ¬ nxt < c.expiry := by omega
    exact ⟨hmiss2, fun v => by rw [awsParameterCritical.eq_def, if_neg hmiss2]⟩

theorem awsParameterCritical_failure_witness :
    awsParameterCritical 5 9 (.configFail "cfg") ⟨"t", 7⟩ = (⟨"t", 7⟩, .error (.configError "cfg")) ∧
    awsParameterCritical 5 10 (.success "v") ⟨"t", 7⟩ = (⟨"v", 15⟩, .ok "v") :=
  ⟨(awsParameterCritical_failure 5 9 ⟨"t", 7⟩ (by decide)).1 "cfg",
   ((awsParameterCritical_failure 5 9 ⟨"t", 7⟩ (by decide)).2.2 10 (by decide)).2 "v"⟩

/-- Claim C3: an `AWSParameter` call whose cancellation fires before entry
to the critical section returns the cancellation error, with the cache
state returned unchanged and the result independent of time and fetch
outcome (nothing is read or written). -/
theorem awsParameterCall_cancelled (ttl now : Nat) (fetch : FetchOutcome) (c : SecretCache) :
    awsParameterCall ttl true now fetch c = (c, .error .cancelled) := by
  rw [awsParameterCall.eq_def, if_pos rfl]

/-- Claim C10: `TokenProviderFromEnv` gives `SLACK_TOKEN` priority (even
when set to the empty string, ignoring the SSM settings), otherwise builds
the cached SSM provider whose TTL is the parsed `SLACK_TOKEN_SSM_TTL` when
that variable is set (a parse failure is an error, not a fallback) and the
two-minute default when unset, and errors when neither variable is set. -/
theorem tokenProviderFromEnv_precedence (pd : String → Except String Int)
    (env : String → Option String) :
    (∀ t, env "SLACK_TOKEN" = some t →
      TokenProviderFromEnv pd env = .ok (.staticToken t)) ∧
    (env "SLACK_TOKEN" = none → ∀ name, env "SLACK_TOKEN_SSM_NAME" = some name →
      (env "SLACK_TOKEN_SSM_TTL" = none →
        TokenProviderFromEnv pd env = .ok (.awsParameter name DefaultAWSParameterTTL)) ∧
      (∀ s, env "SLACK_TOKEN_SSM_TTL" = some s →
        (∀ d, pd s = .ok d → TokenProviderFromEnv pd env = .ok (.awsParameter name d)) ∧
        (∀ e, pd s = .error e → TokenProviderFromEnv pd env =
          .error ("SLACK_TOKEN_SSM_TTL is not a valid Go duration: " ++ e)))) ∧
    (env "SLACK_TOKEN" = none → env "SLACK_TOKEN_SSM_NAME" = none →
      TokenProviderFromEnv pd env =
        .error "missing SLACK_TOKEN or SLACK_TOKEN_SSM_NAME in environment") := by
  refine ⟨?_, ?_, ?_⟩
  · intro t ht
    rw [TokenProviderFromEnv.eq_def, ht]
  · intro hnone name hname
    constructor
    · intro httl
      rw [TokenProviderFromEnv.eq_def, hnone, hname, ssmTTLFromEnv.eq_def, httl]
    · intro s hs
      constructor
      · intro d hd
        simp only [TokenProviderFromEnv.eq_def, hnone, hname, ssmTTLFromEnv.eq_def, hs, hd]
      · intro e he
        simp only [TokenProviderFromEnv.eq_def, hnone, hname, ssmTTLFromEnv.eq_def, hs, he]
  · intro hnone hname
    rw [TokenProviderFromEnv.eq_def, hnone, hname]

theorem tokenProviderFromEnv_precedence_witness :
    TokenProviderFromEnv (fun _ => .ok 5)
      (fun k => if k = "SLACK_TOKEN" then some "" else some "ignored") =
      .ok (.staticToken "") ∧
    TokenProviderFromEnv (fun _ => .ok 5)
      (fun k => if k = "SLACK_TOKEN_SSM_NAME" then some "param" else none) =
      .ok (.awsParameter "param" DefaultAWSParameterTTL) ∧
    TokenProviderFromEnv (fun _ => .error "bad")
      (fun k => if k = "SLACK_TOKEN_SSM_NAME" then some "param"
        else if k = "SLACK_TOKEN_SSM_TTL" then some "5x" else none) =
      .error ("SLACK_TOKEN_SSM_TTL is not a valid Go duration: " ++ "bad") ∧
    TokenProviderFromEnv (fun _ => .ok 5) (fun _ => none) =
      .error "missing SLACK_TOKEN or SLACK_TOKEN_SSM_NAME in environment" :=
  ⟨(tokenProviderFromEnv_precedence _ _).1 "" (by simp),
   ((tokenProviderFromEnv_precedence _ _).2.1 (by simp) "param" (by simp)).1 (by simp),
   (((tokenProviderFromEnv_precedence _ _).2.1 (by simp) "param" (by simp)).2 "5x"
      (by simp)).2 "bad" rfl,
   (tokenProviderFromEnv_precedence _ _).2.2 rfl rfl⟩

theorem step_preserves_wf {ttl : Nat} {l : Label} {s t : SysState}
    (hstep : Step ttl l s t) (hwf : WF s) : WF t := by
  obtain ⟨hwf0, hwf1⟩ := hwf
  cases hstep with
  | @acquire s i p hlock hget hphase =>
    have hcnt := countP_set_eq (fun r => r.inSection) s.procs i p
      { p with phase := .entered } hget
    have hfp : p.inSection = false := by simp [Proc.inSection, hphase]
    have hfq : Proc.inSection { p with phase := .entered } = true := rfl
    have h0 := hwf0 hlock
    simp only [hfp, hfq, if_false, if_true, Bool.false_eq_true] at hcnt
    constructor
    · intro h; simp at h
    · intro _
      simp only [sectionCount] at h0 ⊢
      omega
  | @cancel s i p hget hphase =>
    have hcnt := countP_set_eq (fun r => r.inSection) s.procs i p
      { p with phase := .done (.error .cancelled) } hget
    have hfp : p.inSection = false := by simp [Proc.inSection, hphase]
    have hfq : Proc.inSection { p with phase := .done (.error .cancelled) } = false := rfl
    simp only [hfp, hfq, Bool.false_eq_true, if_false] at hcnt
    constructor
    · intro h
      have h0 := hwf0 h
      simp only [sectionCount] at h0 ⊢
      omega
    · intro h
      have h1 := hwf1 h
      simp only [sectionCount] at h1 ⊢
      omega
  | @hit s i p hget hphase hlt =>
    have hcnt := countP_set_eq (fun r => r.inSection) s.procs i p
      { p with phase := .done (.ok s.cache.token) } hget
    have hfp : p.inSection = true := by simp [Proc.inSection, hphase]
    have hfq : Proc.inSection { p with phase := .done (.ok s.cache.token) } = false := rfl
    have hpos : 0 < s.procs.countP (fun r => r.inSection) :=
      List.countP_pos_iff.mpr ⟨p, List.get?_mem hget, hfp⟩
    have hle : s.procs.countP (fun r => r.inSection) ≤ 1 := by
      cases hb : s.lockHeld
      · have := hwf0 hb; simp only [sectionCount] at this; omega
      · have := hwf1 hb; simp only [sectionCount] at this; omega
    simp only [hfp, hfq, Bool.false_eq_true, if_true, if_false] at hcnt
    constructor
    · intro _
      simp only [sectionCount]
      omega
    · intro h; simp at h
  | @missFetch s i p hget hphase hge =>
    have hcnt := countP_set_eq (fun r => r.inSection) s.procs i p
      { p with phase := .fetching } hget
    have hfp : p.inSection = true := by simp [Proc.inSection, hphase]
    have hfq : Proc.inSection { p with phase := .fetching } = true := rfl
    simp only [hfp, hfq, if_true] at hcnt
    constructor
    · intro h
      have h0 := hwf0 h
      simp only [sectionCount] at h0 ⊢
      omega
    · intro h
      have h1 := hwf1 h
      simp only [sectionCount] at h1 ⊢
      omega
  | @fetchOk s i p v hget hphase hf =>
    have hcnt := countP_set_eq (fun r => r.inSection) s.procs i p
      { p with phase := .done (.ok v) } hget
    have hfp : p.inSection = true := by simp [Proc.inSection, hphase]
    have hfq : Proc.inSection { p with phase := .done (.ok v) } = false := rfl
    have hle : s.procs.countP (fun r => r.inSection) ≤ 1 := by
      cases hb : s.lockHeld
      · have := hwf0 hb; simp only [sectionCount] at this; omega
      · have := hwf1 hb; simp only [sectionCount] at this; omega
    simp only [hfp, hfq, Bool.false_eq_true, if_true, if_false] at hcnt
    constructor
    · intro _
      simp only [sectionCount]
      omega
    · intro h; simp at h
  | @fetchFailConfig s i p msg hget hphase hf =>
    have hcnt := countP_set_eq (fun r => r.inSection) s.procs i p
      { p with phase := .done (.error (.configError msg)) } hget
    have hfp : p.inSection = true := by simp [Proc.inSection, hphase]
    have hfq : Proc.inSection { p with phase := .done (.error (.configError msg)) } = false := rfl
    have hle : s.procs.countP (fun r => r.inSection) ≤ 1 := by
      cases hb : s.lockHeld
      · have := hwf0 hb; simp only [sectionCount] at this; omega
      · have := hwf1 hb; simp only [sectionCount] at this; omega
    simp only [hfp, hfq, Bool.false_eq_true, if_true, if_false] at hcnt
    constructor
    · intro _
      simp only [sectionCount]
      omega
    · intro h; simp at h
  | @fetchFailGet s i p msg hget hphase hf =>
    have hcnt := countP_set_eq (fun r => r.inSection) s.procs i p
      { p with phase := .done (.error (.fetchError ("loading Slack token parameter: " ++ msg))) } hget
    have hfp : p.inSection = true := by simp [Proc.inSection, hphase]
    have hfq : Proc.inSection
        { p with phase := .done (.error (.fetchError ("loading Slack token parameter: " ++ msg))) } = false := rfl
    have hle : s.procs.countP (fun r => r.inSection) ≤ 1 := by
      cases hb : s.lockHeld
      · have := hwf0 hb; simp only [sectionCount] at this; omega
      · have := hwf1 hb; simp only [sectionCount] at this; omega
    simp only [hfp, hfq, Bool.false_eq_true, if_true, if_false] at hcnt
    constructor
    · intro _
      simp only [sectionCount]
      omega
    · intro h; simp at h

theorem steps_preserve_wf {ttl : Nat} {s u : SysState} {trace : List Label}
    (h : Steps ttl s trace u) (hwf : WF s) : WF u := by
  induction h with
  | refl => exact hwf
  | cons hstep _ ih => exact ih (step_preserves_wf hstep hwf)

theorem core_get {l0 l1 : List Proc} (h : l1.map coreOf = l0.map coreOf)
    {i : Nat} {p : Proc} (hget : l1.get? i = some p) :
    ∃ p0, l0.get? i = some p0 ∧ p0 ∈ l0 ∧ p.now = p0.now ∧ p.fetch = p0.fetch := by
  have h2 : (l1.map coreOf).get? i = (l0.map coreOf).get? i := by rw [h]
  rw [List.get?_map, List.get?_map, hget] at h2
  cases h0 : l0.get? i with
  | none => rw [h0] at h2; simp at h2
  | some p0 =>
    rw [h0] at h2
    simp only [Option.map_some'] at h2
    injection h2 with h3
    exact ⟨p0, rfl, List.get?_mem h0, congrArg Prod.fst h3, congrArg Prod.snd h3⟩

theorem core_mem {l0 l1 : List Proc} (h : l1.map coreOf = l0.map coreOf)
    {p : Proc} (hp : p ∈ l1) :
    ∃ p0, p0 ∈ l0 ∧ p.now = p0.now ∧ p.fetch = p0.fetch := by
  obtain ⟨i, hget⟩ := List.mem_iff_get?.mp hp
  obtain ⟨p0, _, hmem, hn, hf⟩ := core_get h hget
  exact ⟨p0, hmem, hn, hf⟩

theorem step_preserves_inv {ttl : Nat} {c0 : SecretCache} {procs0 : List Proc}
    {l : Label} {s t : SysState} {n : Nat}
    (hexp : ∀ p ∈ procs0, c0.expiry ≤ p.now)
    (hpair : ∀ p ∈ procs0, ∀ q ∈ procs0, p.now < q.now + ttl)
    (hfetch : ∀ p ∈ procs0, ∃ v, p.fetch = .success v)
    (hnc : ∀ i, l ≠ Label.cancel i)
    (hstep : Step ttl l s t) (hwf : WF s) (hinv : StateInv c0 procs0 n s) :
    StateInv c0 procs0 (n + countFetches [l]) t := by
  obtain ⟨hcore, hbr⟩ := hinv
  have hcountle : s.procs.countP (fun r => r.inSection) ≤ 1 := by
    cases hb : s.lockHeld
    · have := hwf.1 hb; simp only [sectionCount] at this; omega
    · have := hwf.2 hb; simp only [sectionCount] at this; omega
  cases hstep with
  | @acquire s i p hlock hget hphase =>
    have hn : n + countFetches [Label.acquire i] = n := by simp [countFetches]
    rw [hn]
    refine ⟨?_, ?_⟩
    · exact (map_set_eq_of_eq coreOf s.procs i p { p with phase := .entered } hget rfl).trans hcore
    · rcases hbr with ⟨hn0, hc, hph⟩ | ⟨hn1, hc, j, q, hjget, hqph⟩ | ⟨hn1, hlt, hnf⟩
      · refine Or.inl ⟨hn0, hc, ?_⟩
        intro r hr
        rcases List.mem_or_eq_of_mem_set hr with hr | hr
        · exact hph r hr
        · subst hr; exact Or.inr rfl
      · exfalso
        have h0 := hwf.1 hlock
        have : 0 < s.procs.countP (fun r => r.inSection) :=
          List.countP_pos_iff.mpr ⟨q, List.get?_mem hjget, by simp [Proc.inSection, hqph]⟩
        simp only [sectionCount] at h0
        omega
      · refine Or.inr (Or.inr ⟨hn1, ?_, ?_⟩)
        · intro r hr
          rcases List.mem_or_eq_of_mem_set hr with hr | hr
          · exact hlt r hr
          · subst hr
            exact hlt p (List.get?_mem hget)
        · intro r hr
          rcases List.mem_or_eq_of_mem_set hr with hr | hr
          · exact hnf r hr
          · subst hr; simp
  | @cancel s i p hget hphase =>
    exact absurd rfl (hnc i)
  | @hit s i p hget hphase hltexp =>
    have hn : n + countFetches [Label.hit i] = n := by simp [countFetches]
    rw [hn]
    refine ⟨(map_set_eq_of_eq coreOf s.procs i p
      { p with phase := .done (.ok s.cache.token) } hget rfl).trans hcore, ?_⟩
    rcases hbr with ⟨hn0, hc, hph⟩ | ⟨hn1, hc, j, q, hjget, hqph⟩ | ⟨hn1, hlt, hnf⟩
    · exfalso
      obtain ⟨p0, hp0, hnow, _⟩ := core_mem hcore (List.get?_mem hget)
      have := hexp p0 hp0
      rw [hc] at hltexp
      omega
    · exfalso
      obtain ⟨p0, hp0, hnow, _⟩ := core_mem hcore (List.get?_mem hget)
      have := hexp p0 hp0
      rw [hc] at hltexp
      omega
    · refine Or.inr (Or.inr ⟨hn1, ?_, ?_⟩)
      · intro r hr
        rcases List.mem_or_eq_of_mem_set hr with hr | hr
        · exact hlt r hr
        · subst hr
          exact hlt p (List.get?_mem hget)
      · intro r hr
        rcases List.mem_or_eq_of_mem_set hr with hr | hr
        · exact hnf r hr
        · subst hr; simp
  | @missFetch s i p hget hphase hge =>
    have hn : n + countFetches [Label.missFetch i] = n + 1 := by simp [countFetches]
    rw [hn]
    refine ⟨(map_set_eq_of_eq coreOf s.procs i p
      { p with phase := .fetching } hget rfl).trans hcore, ?_⟩
    rcases hbr with ⟨hn0, hc, hph⟩ | ⟨hn1, hc, j, q, hjget, hqph⟩ | ⟨hn1, hlt, hnf⟩
    · refine Or.inr (Or.inl ⟨by omega, hc, i, { p with phase := .fetching }, ?_, rfl⟩)
      exact List.get?_set_eq_of_lt _ (get?_some_lt_length hget)
    · exfalso
      have hij : i ≠ j := by
        intro he
        subst he
        rw [hget] at hjget
        injection hjget with he2
        rw [← he2] at hqph
        rw [hphase] at hqph
        exact Phase.noConfusion hqph
      have h2 := two_le_countP (fun r => r.inSection) s.procs i j p q hij hget hjget
        (by simp [Proc.inSection, hphase]) (by simp [Proc.inSection, hqph])
      omega
    · exfalso
      exact hge (hlt p (List.get?_mem hget))
  | @fetchOk s i p v hget hphase hf =>
    have hn : n + countFetches [Label.fetchOk i] = n := by simp [countFetches]
    rw [hn]
    refine ⟨(map_set_eq_of_eq coreOf s.procs i p
      { p with phase := .done (.ok v) } hget rfl).trans hcore, ?_⟩
    rcases hbr with ⟨hn0, hc, hph⟩ | ⟨hn1, hc, j, q, hjget, hqph⟩ | ⟨hn1, hlt, hnf⟩
    · exfalso
      rcases hph p (List.get?_mem hget) with h | h <;> rw [hphase] at h <;>
        exact Phase.noConfusion h
    · refine Or.inr (Or.inr ⟨hn1, ?_, ?_⟩)
      · intro r hr
        obtain ⟨p0, hp0, hnow0, _⟩ := core_mem hcore (List.get?_mem hget)
        rcases List.mem_or_eq_of_mem_set hr with hr | hr
        · obtain ⟨r0, hr0, hnowr, _⟩ := core_mem hcore hr
          have := hpair r0 hr0 p0 hp0
          simp only
          omega
        · subst hr
          have := hpair p0 hp0 p0 hp0
          simp only
          omega
      · intro r hr
        obtain ⟨k, hkget⟩ := List.mem_iff_get?.mp hr
        by_cases hik : k = i
        · subst hik
          rw [List.get?_set_eq_of_lt _ (get?_some_lt_length hget)] at hkget
          injection hkget with he
          subst he
          simp
        · rw [List.get?_set_ne _ _ (fun he => hik he.symm)] at hkget
          intro hrf
          have h2 := two_le_countP (fun r => r.inSection) s.procs i k p r
            (fun he => hik he.symm) hget hkget
            (by simp [Proc.inSection, hphase]) (by simp [Proc.inSection, hrf])
          omega
    · exfalso
      exact hnf p (List.get?_mem hget) hphase
  | @fetchFailConfig s i p msg hget hphase hf =>
    exfalso
    obtain ⟨p0, hp0, _, hfe⟩ := core_mem hcore (List.get?_mem hget)
    obtain ⟨v, hv⟩ := hfetch p0 hp0
    rw [← hfe, hf] at hv
    exact FetchOutcome.noConfusion hv
  | @fetchFailGet s i p msg hget hphase hf =>
    exfalso
    obtain ⟨p0, hp0, _, hfe⟩ := core_mem hcore (List.get?_mem hget)
    obtain ⟨v, hv⟩ := hfetch p0 hp0
    rw [← hfe, hf] at hv
    exact FetchOutcome.noConfusion hv

theorem steps_preserve_inv {ttl : Nat} {c0 : SecretCache} {procs0 : List Proc}
    (hexp : ∀ p ∈ procs0, c0.expiry ≤ p.now)
    (hpair : ∀ p ∈ procs0, ∀ q ∈ procs0, p.now < q.now + ttl)
    (hfetch : ∀ p ∈ procs0, ∃ v, p.fetch = .success v) :
    ∀ {s u : SysState} {trace : List Label} {n : Nat},
      Steps ttl s trace u → (∀ i, Label.cancel i ∉ trace) → WF s →
      StateInv c0 procs0 n s → StateInv c0 procs0 (n + countFetches trace) u
  | _, _, _, _, .refl, _, _, hinv => by simpa [countFetches] using hinv
  | s, u, _, n, .cons hstep hsteps, hnc, hwf, hinv => by
    rename_i t l ls
    have hnc1 : ∀ i, l ≠ Label.cancel i := by
      intro i he
      exact hnc i (by rw [he]; exact List.mem_cons_self _ _)
    have hncr : ∀ i, Label.cancel i ∉ ls := by
      intro i hm
      exact hnc i (List.mem_cons_of_mem _ hm)
    have hres := steps_preserve_inv hexp hpair hfetch hsteps hncr
      (step_preserves_wf hstep hwf)
      (step_preserves_inv hexp hpair hfetch hnc1 hstep hwf hinv)
    have harith : n + countFetches [l] + countFetches ls = n + countFetches (l :: ls) := by
      simp [countFetches, List.countP_cons]
      omega
    rwa [harith] at hres

/-- Claim C4: in the interleaving semantics of the `AWSParameter` closure,
at most one call is ever inside the check-then-fetch-then-update sequence;
once every call has returned the lock channel is free again (released on
every exit path); and in the stampede scenario, where every call starts
while the cache is expired and runs before any refreshed TTL would expire,
with fetches succeeding and no cancellations, a completed run issues
exactly one remote fetch. -/
theorem awsParameter_single_flight (ttl : Nat) (c0 : SecretCache) (procs0 : List Proc)
    (trace : List Label) (s : SysState)
    (hwait : ∀ p ∈ procs0, p.phase = .waiting)
    (hsteps : Steps ttl { lockHeld := false, cache := c0, procs := procs0 } trace s) :
    sectionCount s ≤ 1 ∧
    ((∀ p ∈ s.procs, p.isDone = true) → s.lockHeld = false) ∧
    ((∀ p ∈ procs0, c0.expiry ≤ p.now) →
     (∀ p ∈ procs0, ∀ q ∈ procs0, p.now < q.now + ttl) →
     (∀ p ∈ procs0, ∃ v, p.fetch = .success v) →
     (∀ i, Label.cancel i ∉ trace) →
     (∀ p ∈ s.procs, p.isDone = true) →
     procs0 ≠ [] →
     countFetches trace = 1) := by
  have hwf0 : WF { lockHeld := false, cache := c0, procs := procs0 } := by
    constructor
    · intro _
      simp only [sectionCount]
      rw [List.countP_eq_zero]
      intro p hp
      simp [Proc.inSection, hwait p hp]
    · intro h
      simp at h
  have hwfS := steps_preserve_wf hsteps hwf0
  refine ⟨?_, ?_, ?_⟩
  · cases hb : s.lockHeld
    · have := hwfS.1 hb; omega
    · have := hwfS.2 hb; omega
  · intro hdone
    have hzero : sectionCount s = 0 := by
      simp only [sectionCount]
      rw [List.countP_eq_zero]
      intro p hp
      have := hdone p hp
      cases hph : p.phase <;> simp [Proc.inSection, hph] <;>
        simp [Proc.isDone, hph] at this
    cases hb : s.lockHeld
    · rfl
    · have := hwfS.2 hb
      omega
  · intro hexp hpair hfetch hnc hdone hne
    have hinv0 : StateInv c0 procs0 0 { lockHeld := false, cache := c0, procs := procs0 } :=
      ⟨rfl, Or.inl ⟨rfl, rfl, fun p hp => Or.inl (hwait p hp)⟩⟩
    have hres := steps_preserve_inv hexp hpair hfetch hsteps hnc hwf0 hinv0
    obtain ⟨hcore, hbr⟩ := hres
    rcases hbr with ⟨hn0, _, hph⟩ | ⟨hn1, _, j, q, hjget, hqph⟩ | ⟨hn1, _, _⟩
    · exfalso
      have hlen : s.procs.length = procs0.length := by
        have := congrArg List.length hcore
        simpa using this
      have hpos : 0 < s.procs.length := by
        rw [hlen]
        exact List.length_pos.mpr hne
      obtain ⟨p, hp⟩ := List.exists_mem_of_length_pos hpos
      have hd := hdone p hp
      rcases hph p hp with h | h <;> simp [Proc.isDone, h] at hd
    · exfalso
      have hd := hdone q (List.get?_mem hjget)
      simp [Proc.isDone, hqph] at hd
    · omega

theorem awsParameter_single_flight_witness :
    countFetches [.acquire 0, .missFetch 0, .fetchOk 0, .acquire 1, .hit 1] = 1 := by
  have h1 : Step 10 (.acquire 0)
      { lockHeld := false, cache := { token := "", expiry := 0 },
        procs := [{ now := 0, fetch := .success "v", phase := .waiting },
                  { now := 1, fetch := .success "v", phase := .waiting }] }
      { lockHeld := true, cache := { token := "", expiry := 0 },
        procs := [{ now := 0, fetch := .success "v", phase := .entered },
                  { now := 1, fetch := .success "v", phase := .waiting }] } :=
    Step.acquire (p := { now := 0, fetch := .success "v", phase := .waiting }) rfl rfl rfl
  have h2 : Step 10 (.missFetch 0)
      { lockHeld := true, cache := { token := "", expiry := 0 },
        procs := [{ now := 0, fetch := .success "v", phase := .entered },
                  { now := 1, fetch := .success "v", phase := .waiting }] }
      { lockHeld := true, cache := { token := "", expiry := 0 },
        procs := [{ now := 0, fetch := .success "v", phase := .fetching },
                  { now := 1, fetch := .success "v", phase := .waiting }] } :=
    Step.missFetch (p := { now := 0, fetch := .success "v", phase := .entered }) rfl rfl (by decide)
  have h3 : Step 10 (.fetchOk 0)
      { lockHeld := true, cache := { token := "", expiry := 0 },
        procs := [{ now := 0, fetch := .success "v", phase := .fetching },
                  { now := 1, fetch := .success "v", phase := .waiting }] }
      { lockHeld := false, cache := { token := "v", expiry := 10 },
        procs := [{ now := 0, fetch := .success "v", phase := .done (.ok "v") },
                  { now := 1, fetch := .success "v", phase := .waiting }] } :=
    Step.fetchOk (p := { now := 0, fetch := .success "v", phase := .fetching }) rfl rfl rfl
  have h4 : Step 10 (.acquire 1)
      { lockHeld := false, cache := { token := "v", expiry := 10 },
        procs := [{ now := 0, fetch := .success "v", phase := .done (.ok "v") },
                  { now := 1, fetch := .success "v", phase := .waiting }] }
      { lockHeld := true, cache := { token := "v", expiry := 10 },
        procs := [{ now := 0, fetch := .success "v", phase := .done (.ok "v") },
                  { now := 1, fetch := .success "v", phase := .entered }] } :=
    Step.acquire (p := { now := 1, fetch := .success "v", phase := .waiting }) rfl rfl rfl
  have h5 : Step 10 (.hit 1)
      { lockHeld := true, cache := { token := "v", expiry := 10 },
        procs := [{ now := 0, fetch := .success "v", phase := .done (.ok "v") },
                  { now := 1, fetch := .success "v", phase := .entered }] }
      { lockHeld := false, cache := { token := "v", expiry := 10 },
        procs := [{ now := 0, fetch := .success "v", phase := .done (.ok "v") },
                  { now := 1, fetch := .success "v", phase := .done (.ok "v") }] } :=
    Step.hit (p := { now := 1, fetch := .success "v", phase := .entered }) rfl rfl (by decide)
  have hsteps : Steps 10
      { lockHeld := false, cache := { token := "", expiry := 0 },
        procs := [{ now := 0, fetch := .success "v", phase := .waiting },
                  { now := 1, fetch := .success "v", phase := .waiting }] }
      [.acquire 0, .missFetch 0, .fetchOk 0, .acquire 1, .hit 1]
      { lockHeld := false, cache := { token := "v", expiry := 10 },
        procs := [{ now := 0, fetch := .success "v", phase := .done (.ok "v") },
                  { now := 1, fetch := .success "v", phase := .done (.ok "v") }] } :=
    .cons h1 (.cons h2 (.cons h3 (.cons h4 (.cons h5 .refl))))
  exact (awsParameter_single_flight 10 { token := "", expiry := 0 }
      [{ now := 0, fetch := .success "v", phase := .waiting },
       { now := 1, fetch := .success "v", phase := .waiting }]
      [.acquire 0, .missFetch 0, .fetchOk 0, .acquire 1, .hit 1]
      { lockHeld := false, cache := { token := "v", expiry := 10 },
        procs := [{ now := 0, fetch := .success "v", phase := .done (.ok "v") },
                  { now := 1, fetch := .success "v", phase := .done (.ok "v") }] }
      (by decide) hsteps).2.2
    (by decide) (by decide)
    (by intro p hp; fin_cases hp <;> exact ⟨"v", rfl⟩)
    (by intro i hm; simp [List.mem_cons] at hm)
    (by decide) (by decide)

end Slack
